import Mathlib

/-!
Verification development for the bin-world large-image LOD rendering system.

The engineering core of the repository lives in `docs/image-lod- base.md` (Python
`ImageProcessor` for pyramid/tiling generation, TypeScript `ImageRenderer`,
`MemoryManager`, `PreloadManager`) and in the advanced-features document
(`MemoryManager`, `FrustumCuller`, `ChunkPredictor`).  This file gives a
shallow embedding of those functions and proves/refutes the specification
claims about them.

Modelling conventions:
* JavaScript/Python numbers are embedded as `ℚ` (coordinates, scales) or
  `ℕ`/`ℤ` (pixel sizes, chunk indices, counts).
* `Math.floor`/`Math.ceil` become `Int.floor`/`Int.ceil` on `ℚ`;
  `math.ceil(a / b)` on naturals becomes `(a + b - 1) / b`.
* `Math.floor(-Math.log2 zoom)` is embedded by the computable `negFloorLog2`,
  characterised against exact powers of two by `negFloorLog2_eq`.
* `Map`/`Set` objects become insertion-ordered association lists / key lists,
  matching the insertion-order iteration semantics of JavaScript maps and sets.
* Pixel data is abstracted: a cropped tile is represented by the rectangle
  that determines it, which is all the claims inspect.
-/

/-- Inclusive integer range `[a..b]`, the index set of a JavaScript
`for (let i = a; i <= b; i++)` loop. -/
def intRange (a b : ℤ) : List ℤ :=
  (List.range (b + 1 - a).toNat).map (fun (i : ℕ) => a + (i : ℤ))

theorem mem_intRange {a b x : ℤ} : x ∈ intRange a b ↔ a ≤ x ∧ x ≤ b := by
  constructor
  · intro hx
    obtain ⟨i, hi, rfl⟩ := List.mem_map.mp hx
    rw [List.mem_range] at hi
    omega
  · rintro ⟨h1, h2⟩
    apply List.mem_map.mpr
    exact ⟨(x - a).toNat, List.mem_range.mpr (by omega), by omega⟩

/-- Computable value of `Math.floor(-Math.log2 zoom)` for a positive rational
`zoom`, as used by `calculateLOD`, `LODManager.updateLOD` and
`ChunkPredictor.getChunksForPosition`.  For `zoom ≥ 1` this is
`-⌈log2 zoom⌉`, computed with `Nat.clog` on `⌈zoom⌉`; for `zoom < 1` it is
`⌊log2 zoom⁻¹⌋`, computed with `Nat.log` on `⌊zoom⁻¹⌋`. -/
def negFloorLog2 (zoom : ℚ) : ℤ :=
  if 1 ≤ zoom then -(Nat.clog 2 ⌈zoom⌉.toNat : ℤ) else (Nat.log 2 ⌊zoom⁻¹⌋.toNat : ℤ)

theorem q2_zpow_natCast (m : ℕ) : (2 : ℚ) ^ (m : ℤ) = ((2 ^ m : ℕ) : ℚ) := by
  rw [zpow_natCast]
  push_cast
  ring

/-- Characterisation of `negFloorLog2`: on the interval
`2 ^ (-(v+1)) < zoom ≤ 2 ^ (-v)` (which is exactly where the real number
`⌊-log2 zoom⌋` equals `v`) the function returns `v`. -/
theorem negFloorLog2_eq (zoom : ℚ) (v : ℤ)
    (h1 : (2 : ℚ) ^ (-(v + 1)) < zoom) (h2 : zoom ≤ (2 : ℚ) ^ (-v)) :
    negFloorLog2 zoom = v := by
  have h2pos : ∀ w : ℤ, (0 : ℚ) < 2 ^ w := fun w => zpow_pos (by norm_num) w
  have hz : 0 < zoom := lt_trans (h2pos _) h1
  unfold negFloorLog2
  by_cases hone : 1 ≤ zoom
  · rw [if_pos hone]
    -- here v ≤ 0, and we must show Nat.clog 2 ⌈zoom⌉ = -v
    have hv0 : v ≤ 0 := by
      by_contra hv
      push_neg at hv
      have hle : (2 : ℚ) ^ (-v) ≤ 2 ^ (-1 : ℤ) := by
        apply zpow_le_zpow_right₀ (by norm_num) (by omega)
      have : zoom ≤ 2 ^ (-1 : ℤ) := le_trans h2 hle
      rw [show ((-1 : ℤ)) = -(1 : ℤ) from rfl, zpow_neg, zpow_one] at this
      linarith
    set m : ℕ := (-v).toNat with hm
    have hmv : (m : ℤ) = -v := by omega
    have hceil1 : 1 ≤ ⌈zoom⌉ := by
      have := Int.le_ceil zoom
      have : (1 : ℚ) ≤ ⌈zoom⌉ := le_trans hone this
      exact_mod_cast this
    set n : ℕ := ⌈zoom⌉.toNat with hn
    have hnceil : (n : ℤ) = ⌈zoom⌉ := by omega
    have hn_le : n ≤ 2 ^ m := by
      have : zoom ≤ ((2 ^ m : ℕ) : ℚ) := by
        rw [← q2_zpow_natCast, hmv]; exact h2
      have hc : ⌈zoom⌉ ≤ ((2 ^ m : ℕ) : ℤ) := Int.ceil_le.mpr (by exact_mod_cast this)
      omega
    have hclog_le : Nat.clog 2 n ≤ m := (Nat.le_pow_iff_clog_le one_lt_two).mp hn_le
    have hclog_ge : m ≤ Nat.clog 2 n := by
      rcases Nat.eq_zero_or_pos m with hm0 | hmpos
      · omega
      · have hlt : (2 : ℚ) ^ ((m - 1 : ℕ) : ℤ) < zoom := by
          have : ((m - 1 : ℕ) : ℤ) = -(v + 1) := by omega
          rw [this]; exact h1
        rw [q2_zpow_natCast] at hlt
        have hc : ((2 ^ (m - 1) : ℕ) : ℤ) < ⌈zoom⌉ := Int.lt_ceil.mpr (by exact_mod_cast hlt)
        have hpow : 2 ^ (m - 1) < n := by omega
        have := (Nat.pow_lt_iff_lt_clog one_lt_two).mp hpow
        omega
    have : Nat.clog 2 n = m := le_antisymm hclog_le hclog_ge
    rw [this]; omega
  · rw [if_neg hone]
    push_neg at hone
    -- here 0 ≤ v, and we must show Nat.log 2 ⌊zoom⁻¹⌋ = v
    have hv0 : 0 ≤ v := by
      by_contra hv
      push_neg at hv
      have h0 : (0 : ℤ) ≤ -(v + 1) := by omega
      have : (2 : ℚ) ^ (0 : ℤ) ≤ 2 ^ (-(v + 1)) :=
        zpow_le_zpow_right₀ (by norm_num) h0
      rw [zpow_zero] at this
      linarith
    have hrinv1 : 1 < zoom⁻¹ := (one_lt_inv₀ hz).mpr hone
    have hlow : (2 : ℚ) ^ v ≤ zoom⁻¹ := by
      have := inv_anti₀ hz h2
      rwa [← zpow_neg, neg_neg] at this
    have hhigh : zoom⁻¹ < (2 : ℚ) ^ (v + 1) := by
      have := inv_strictAnti₀ (h2pos (-(v + 1))) h1
      rwa [← zpow_neg, neg_neg] at this
    set m : ℕ := v.toNat with hm
    have hmv : (m : ℤ) = v := by omega
    set n : ℕ := ⌊zoom⁻¹⌋.toNat with hn
    have hfl0 : (0 : ℤ) ≤ ⌊zoom⁻¹⌋ := by
      have : (1 : ℚ) ≤ zoom⁻¹ := le_of_lt hrinv1
      have := Int.le_floor.mpr (by exact_mod_cast this : ((1 : ℤ) : ℚ) ≤ zoom⁻¹)
      omega
    have hnfl : (n : ℤ) = ⌊zoom⁻¹⌋ := by omega
    have hn_ge : 2 ^ m ≤ n := by
      have : ((2 ^ m : ℕ) : ℚ) ≤ zoom⁻¹ := by
        rw [← q2_zpow_natCast, hmv]; exact hlow
      have hc : ((2 ^ m : ℕ) : ℤ) ≤ ⌊zoom⁻¹⌋ := Int.le_floor.mpr (by exact_mod_cast this)
      omega
    have hn_lt : n < 2 ^ (m + 1) := by
      have : zoom⁻¹ < ((2 ^ (m + 1) : ℕ) : ℚ) := by
        rw [← q2_zpow_natCast]
        have : ((m + 1 : ℕ) : ℤ) = v + 1 := by omega
        rw [this]; exact hhigh
      have hc : ⌊zoom⁻¹⌋ < ((2 ^ (m + 1) : ℕ) : ℤ) := Int.floor_lt.mpr (by exact_mod_cast this)
      omega
    have hn0 : n ≠ 0 := by
      have : 1 ≤ 2 ^ m := Nat.one_le_two_pow
      omega
    have hlog_ge : m ≤ Nat.log 2 n := (Nat.pow_le_iff_le_log one_lt_two hn0).mp hn_ge
    have hlog_lt : Nat.log 2 n < m + 1 := (Nat.lt_pow_iff_log_lt one_lt_two hn0).mp hn_lt
    have : Nat.log 2 n = m := by omega
    rw [this]; omega

theorem negFloorLog2_one : negFloorLog2 1 = 0 :=
  negFloorLog2_eq 1 0 (by norm_num) (by norm_num)

/-! ## Server side: `ImageProcessor` (Python, docs/image-lod- base.md)

The image itself is represented by its pixel dimensions; `resize_image`
(body not in the repository) is modelled from the spec: each subsequent
level halves width and height, embedded as natural floor halving.
`crop_image` output is represented by the crop rectangle that determines
it. -/

/-- One recorded pyramid level, as appended by `generate_pyramid`:
a dict of level, width, height, scale `1/2**level`, and image. -/
structure PyrLevel where
  level : ℕ
  width : ℕ
  height : ℕ
  scale : ℚ
deriving DecidableEq

/-- The `while min(w, h) > min_size` loop of `generate_pyramid`, with the
current level counter made explicit. -/
def generate_pyramid_go (minSize w h lvl : ℕ) : List PyrLevel :=
  if hmin : minSize < min w h then
    ⟨lvl, w, h, 1 / 2 ^ lvl⟩ :: generate_pyramid_go minSize (w / 2) (h / 2) (lvl + 1)
  else []
termination_by min w h
decreasing_by
  simp_wf
  omega

/-- Embedding of `ImageProcessor.generate_pyramid`: record successively halved levels while
the smaller dimension is strictly above `min_size`. -/
def generate_pyramid (minSize w h : ℕ) : List PyrLevel :=
  generate_pyramid_go minSize w h 0

/-- One chunk dictionary produced by `split_into_chunks`; the `data` field
holds the crop rectangle passed to `crop_image`. -/
structure PyChunk where
  level : ℕ
  x : ℕ
  y : ℕ
  actual_x : ℕ
  actual_y : ℕ
  width : ℕ
  height : ℕ
  data : ℕ × ℕ × ℕ × ℕ
deriving DecidableEq, Inhabited

/-- The inner double loop of `split_into_chunks` for one pyramid level:
`chunks_x = ceil(width / chunk_size)`, the last row/column clipped to the
remaining pixels. -/
def chunksOfLevel (chunk_size : ℕ) (ld : PyrLevel) : List PyChunk :=
  let chunks_x := (ld.width + chunk_size - 1) / chunk_size
  let chunks_y := (ld.height + chunk_size - 1) / chunk_size
  (List.range chunks_y).flatMap (fun y =>
    (List.range chunks_x).map (fun x =>
      let actual_x := x * chunk_size
      let actual_y := y * chunk_size
      let chunk_width := min chunk_size (ld.width - actual_x)
      let chunk_height := min chunk_size (ld.height - actual_y)
      { level := ld.level
        x := x
        y := y
        actual_x := actual_x
        actual_y := actual_y
        width := chunk_width
        height := chunk_height
        data := (actual_x, actual_y, chunk_width, chunk_height) }))

/-- Embedding of `ImageProcessor.split_into_chunks`: the per-level chunk lists, keyed by
level in insertion order (Python dict preserves insertion order). -/
def split_into_chunks (chunk_size : ℕ) (pyramid_levels : List PyrLevel) :
    List (ℕ × List PyChunk) :=
  pyramid_levels.map (fun ld => (ld.level, chunksOfLevel chunk_size ld))

/-- One level entry of the metadata descriptor (`level_metadata` in
`generate_metadata`); this is also the wire shape of the TypeScript
`LevelInfo` interface. -/
structure LevelInfo where
  level : ℕ
  width : ℕ
  height : ℕ
  scale : ℚ
  chunk_size : ℕ
  chunks_x : ℕ
  chunks_y : ℕ
  chunk_count : ℕ
deriving DecidableEq

/-- The full metadata dictionary returned by `generate_metadata` /
`process_large_image`.  `image_id` comes from `generate_image_id()` (a fresh
UUID per run) and `processing_time` from the wall clock; both are therefore
inputs of the embedding, provided by the environment of the run. -/
structure Metadata where
  image_id : String
  levels : List LevelInfo
  total_chunks : ℕ
  chunk_size : ℕ
  processing_time : ℚ
deriving DecidableEq

/-- Embedding of `ImageProcessor.generate_metadata`.  Note that `level_info` is
`chunk_list[0]` — the first (top-left) chunk — and the recorded width/height
are `level_info.actual_x + level_info.width` (resp. y), exactly as in the
source. -/
def generate_metadata (chunk_size : ℕ) (imageId : String) (ptime : ℚ)
    (chunks_data : List (ℕ × List PyChunk)) : Metadata :=
  let levels : List LevelInfo := chunks_data.map (fun (p : ℕ × List PyChunk) =>
    let level := p.1
    let chunk_list := p.2
    let level_info := chunk_list.headI
    let max_x := (chunk_list.map PyChunk.x).foldl max 0
    let max_y := (chunk_list.map PyChunk.y).foldl max 0
    ({ level := level,
       width := if chunk_list.isEmpty then 0 else level_info.actual_x + level_info.width,
       height := if chunk_list.isEmpty then 0 else level_info.actual_y + level_info.height,
       scale := 1 / 2 ^ level,
       chunk_size := chunk_size,
       chunks_x := max_x + 1,
       chunks_y := max_y + 1,
       chunk_count := chunk_list.length } : LevelInfo))
  { image_id := imageId
    levels := levels
    total_chunks := (chunks_data.map (fun p => p.2.length)).sum
    chunk_size := chunk_size
    processing_time := ptime }

/-- Embedding of `ImageProcessor.process_large_image` for a decodable source image of
dimensions `w × h`: pyramid, chunking, metadata.  (`save_chunks` only writes
the chunk files and does not affect the returned metadata.) -/
def process_large_image (chunk_size minSize w h : ℕ) (imageId : String) (ptime : ℚ) :
    Metadata :=
  generate_metadata chunk_size imageId ptime
    (split_into_chunks chunk_size (generate_pyramid minSize w h))

theorem pyramid_div_div (d i : ℕ) : d / 2 / 2 ^ i = d / 2 ^ (i + 1) := by
  rw [Nat.div_div_eq_div_mul, pow_succ']

/-- Shape of the `generate_pyramid` loop output: some number of levels, the
`i`-th holding the `i`-times-halved dimensions and contiguous level numbers. -/
theorem generate_pyramid_go_eq (minSize w h lvl : ℕ) :
    ∃ len, generate_pyramid_go minSize w h lvl =
      (List.range len).map
        (fun (i : ℕ) => (⟨lvl + i, w / 2 ^ i, h / 2 ^ i, 1 / 2 ^ (lvl + i)⟩ : PyrLevel)) := by
  induction w, h, lvl using generate_pyramid_go.induct minSize with
  | case1 w h lvl hmin ih =>
    obtain ⟨len, heq⟩ := ih
    refine ⟨len + 1, ?_⟩
    rw [generate_pyramid_go, dif_pos hmin, heq, List.range_succ_eq_map]
    rw [List.map_cons, List.map_map]
    refine List.cons_eq_cons.mpr ⟨?_, ?_⟩
    · simp
    · apply List.map_congr_left
      intro i hi
      have e1 : lvl + 1 + i = lvl + (i + 1) := by omega
      simp only [Function.comp]
      rw [e1, pyramid_div_div, pyramid_div_div]
  | case2 w h lvl hmin =>
    exact ⟨0, by rw [generate_pyramid_go, dif_neg hmin]; simp⟩

/-- Every recorded level has its smaller dimension strictly above the
configured minimum. -/
theorem generate_pyramid_go_min_lt (minSize w h lvl : ℕ) :
    ∀ l ∈ generate_pyramid_go minSize w h lvl, minSize < min l.width l.height := by
  induction w, h, lvl using generate_pyramid_go.induct minSize with
  | case1 w h lvl hmin ih =>
    rw [generate_pyramid_go, dif_pos hmin]
    intro l hl
    rcases List.mem_cons.mp hl with rfl | hl
    · exact hmin
    · exact ih l hl
  | case2 w h lvl hmin =>
    rw [generate_pyramid_go, dif_neg hmin]
    intro l hl
    exact absurd hl (List.not_mem_nil l)

/-- After the loop stops, one more halving of the last recorded level is at or
below the minimum: the dimensions halved `length` times no longer exceed it. -/
theorem generate_pyramid_go_halt (minSize w h lvl : ℕ) :
    min (w / 2 ^ (generate_pyramid_go minSize w h lvl).length)
        (h / 2 ^ (generate_pyramid_go minSize w h lvl).length) ≤ minSize := by
  induction w, h, lvl using generate_pyramid_go.induct minSize with
  | case1 w h lvl hmin ih =>
    rw [generate_pyramid_go, dif_pos hmin, List.length_cons]
    rw [← pyramid_div_div w _, ← pyramid_div_div h _]
    exact ih
  | case2 w h lvl hmin =>
    rw [generate_pyramid_go, dif_neg hmin]
    simpa using Nat.not_lt.mp hmin

/-! ## Client side: `ImageRenderer` (TypeScript, docs/image-lod- base.md) -/

/-- The TypeScript `ImageMetadata` interface (the copy held by the renderer of the
descriptor; `processing_time` is not part of the interface). -/
structure ImageMetadata where
  image_id : String
  levels : List LevelInfo
  total_chunks : ℕ
  chunk_size : ℕ
deriving DecidableEq

/-- The TypeScript `ChunkInfo` interface `{ level, x, y }`. -/
structure ChunkInfo where
  level : ℕ
  x : ℤ
  y : ℤ
deriving DecidableEq

/-- The TypeScript `Viewport` interface, in image-space (level 0) pixels. -/
structure Viewport where
  x : ℚ
  y : ℚ
  width : ℚ
  height : ℚ
  zoom : ℚ
deriving DecidableEq

/-- Embedding of `ImageRenderer.calculateLOD`:
`Math.min(Math.max(0, Math.floor(-Math.log2 zoom)), levels.length - 1)`.
The renderer calls it with `levelCount = this.imageMetadata.levels.length`. -/
def calculateLOD (levelCount : ℕ) (zoom : ℚ) : ℤ :=
  min (max 0 (negFloorLog2 zoom)) ((levelCount : ℤ) - 1)

/-- Embedding of `ImageRenderer.getVisibleChunks`: scale the viewport into the coordinate space of the level, take `floor` of the start and `ceil` of the end chunk
coordinate, clamp into `[0, chunks_x - 1]` (resp. y), and return the product
of the two inclusive ranges, rows outermost. -/
def getVisibleChunks (meta : ImageMetadata) (viewport : Viewport) (level : ℕ) :
    List ChunkInfo :=
  match meta.levels[level]? with
  | none => []
  | some levelData =>
    let chunkSize : ℚ := levelData.chunk_size
    let sx := viewport.x * levelData.scale
    let sy := viewport.y * levelData.scale
    let sw := viewport.width * levelData.scale
    let sh := viewport.height * levelData.scale
    let startX := max 0 ⌊sx / chunkSize⌋
    let startY := max 0 ⌊sy / chunkSize⌋
    let endX := min ((levelData.chunks_x : ℤ) - 1) ⌈(sx + sw) / chunkSize⌉
    let endY := min ((levelData.chunks_y : ℤ) - 1) ⌈(sy + sh) / chunkSize⌉
    (intRange startY endY).flatMap (fun y =>
      (intRange startX endX).map (fun x => ⟨level, x, y⟩))

/-- Reference brute-force overlap test from the spec: tile `(x, y)` of the
level covers `[x·cs, (x+1)·cs) × [y·cs, (y+1)·cs)` in level coordinates, and
the viewport scaled to the level covers `[sx, sx+sw) × [sy, sy+sh)`; the two
rectangles overlap iff both interval pairs overlap. -/
def tileOverlapsViewport (meta : ImageMetadata) (viewport : Viewport) (level : ℕ)
    (x y : ℤ) : Bool :=
  match meta.levels[level]? with
  | none => false
  | some levelData =>
    let cs : ℚ := levelData.chunk_size
    let sx := viewport.x * levelData.scale
    let sy := viewport.y * levelData.scale
    let sw := viewport.width * levelData.scale
    let sh := viewport.height * levelData.scale
    decide ((x : ℚ) * cs < sx + sw ∧ sx < ((x : ℚ) + 1) * cs ∧
            (y : ℚ) * cs < sy + sh ∧ sy < ((y : ℚ) + 1) * cs)

/-- Reference brute-force visible set from the spec: every in-bounds tile
coordinate of the level that overlaps the scaled viewport rectangle. -/
def bruteForceVisible (meta : ImageMetadata) (viewport : Viewport) (level : ℕ) :
    List ChunkInfo :=
  match meta.levels[level]? with
  | none => []
  | some levelData =>
    (intRange 0 ((levelData.chunks_y : ℤ) - 1)).flatMap (fun y =>
      ((intRange 0 ((levelData.chunks_x : ℤ) - 1)).filter
        (fun x => tileOverlapsViewport meta viewport level x y)).map
        (fun x => ⟨level, x, y⟩))

/-- The 4096×4096 / `chunkSize = 512` / `minSize = 256` example descriptor of
the spec scenarios, as the client holds it: four levels 4096² (8×8), 2048²
(4×4), 1024² (2×2), 512² (1×1). -/
def exampleMetadata : ImageMetadata :=
  { image_id := "example"
    levels := [
      ⟨0, 4096, 4096, 1, 512, 8, 8, 64⟩,
      ⟨1, 2048, 2048, 1 / 2, 512, 4, 4, 16⟩,
      ⟨2, 1024, 1024, 1 / 4, 512, 2, 2, 4⟩,
      ⟨3, 512, 512, 1 / 8, 512, 1, 1, 1⟩]
    total_chunks := 85
    chunk_size := 512 }

/-- Embedding of `ImageRenderer.getChunkKey`: the string key `level-x-y`. -/
def getChunkKey (c : ChunkInfo) : String :=
  toString c.level ++ "-" ++ toString c.x ++ "-" ++ toString c.y

/-- The loader-visible state of `ImageRenderer`: the key set of the
`chunkCache` map (keys whose texture is loaded; the texture values themselves
are irrelevant to the load path) and the `loadingChunks` set, both in
insertion order. -/
structure RendererCache where
  chunkCache : List String
  loadingChunks : List String
deriving DecidableEq

/-- Outcome of the asynchronous part of `loadChunk` (network fetch plus
`createImageBitmap` decode). -/
inductive FetchResult where
  | ok : FetchResult
  | err : FetchResult
deriving DecidableEq

/-- The synchronous prefix of `ImageRenderer.loadChunk`, up to the first
`await`: if the key is cached or already loading, return without issuing a
fetch; otherwise add the key to `loadingChunks` and issue the fetch.  The
boolean records whether a fetch was issued. -/
def loadChunkIssue (s : RendererCache) (key : String) : RendererCache × Bool :=
  if key ∈ s.chunkCache ∨ key ∈ s.loadingChunks then (s, false)
  else ({ s with loadingChunks := s.loadingChunks ++ [key] }, true)

/-- The continuation of `ImageRenderer.loadChunk` after the fetch settles.
On success the texture is created and the key inserted into `chunkCache`; on
failure the `catch` block merely logs, so no exception escapes; in both cases
the `finally` block removes the key from `loadingChunks`. -/
def loadChunkComplete (s : RendererCache) (key : String) (r : FetchResult) :
    RendererCache :=
  match r with
  | .ok => { chunkCache := s.chunkCache ++ [key], loadingChunks := s.loadingChunks.erase key }
  | .err => { s with loadingChunks := s.loadingChunks.erase key }

/-- Embedding of `ImageRenderer.loadMissingChunks` restricted to its issuing effect: filter
the requested chunks to those neither cached nor loading, then start
`loadChunk` for each; the second component counts the underlying fetches
issued. -/
def loadMissingChunksIssue (s : RendererCache) (chunks : List ChunkInfo) :
    RendererCache × ℕ :=
  let missing := chunks.filter (fun c =>
    decide (getChunkKey c ∉ s.chunkCache ∧ getChunkKey c ∉ s.loadingChunks))
  missing.foldl (fun acc c =>
    let r := loadChunkIssue acc.1 (getChunkKey c)
    (r.1, acc.2 + r.2.toNat)) (s, 0)

/-- The chunks actually drawn by `ImageRenderer.renderChunks`: chunks whose
texture is present in the cache; a chunk with no texture is skipped
(`if (!texture) continue`). -/
def renderChunksDrawn (cache : List String) (chunks : List ChunkInfo) : List ChunkInfo :=
  chunks.filter (fun c => cache.contains (getChunkKey c))

/-! ## `MemoryManager` (TypeScript, docs/image-lod- base.md) -/

/-- Memory footprint charged per cached chunk by `recalculateCacheSize`:
`512 * 512 * 4` bytes (RGBA). -/
def BYTES_PER_CHUNK : ℕ := 512 * 512 * 4

/-- The `MemoryManager` fields: the `accessTimes` map in insertion order and
the two byte counters.  (`maxCacheSize` is `100MB` in the constructor; it is
kept as a field so that the `K`-entry ceilings used by the spec are expressible.) -/
structure MemState where
  accessTimes : List (String × ℕ)
  currentCacheSize : ℕ
  maxCacheSize : ℕ
deriving DecidableEq

/-- Embedding of `Array.from(accessTimes.entries()).sort((a, b) => a[1] - b[1])`: a stable
sort ascending by access time. -/
def sortByAccessTime (l : List (String × ℕ)) : List (String × ℕ) :=
  List.insertionSort (fun p q => p.2 ≤ q.2) l

/-- The keys selected for deletion by `cleanupCache`: the first
`Math.floor(chunkCache.size * 0.3)` entries of the time-sorted access list. -/
def cleanupVictims (s : MemState) (cache : List String) : List String :=
  ((sortByAccessTime s.accessTimes).take (3 * cache.length / 10)).map Prod.fst

/-- Embedding of `MemoryManager.cleanupCache`: a no-op while usage is below the ceiling;
otherwise delete the textures of the victim keys from the cache (a victim key
absent from the cache is skipped, and then also stays in `accessTimes`),
and recalculate usage as `chunkCache.size * 512 * 512 * 4`. -/
def cleanupCache (s : MemState) (cache : List String) : MemState × List String :=
  if s.currentCacheSize < s.maxCacheSize then (s, cache)
  else
    let victims := cleanupVictims s cache
    let cacheAfter := cache.filter (fun k => decide (k ∉ victims))
    let timesAfter := s.accessTimes.filter (fun p => decide (p.1 ∉ victims ∨ p.1 ∉ cache))
    ({ s with accessTimes := timesAfter,
              currentCacheSize := cacheAfter.length * BYTES_PER_CHUNK }, cacheAfter)

/-- The `Map.set` semantics of JavaScript: update the value in place if the key
exists, else append the binding. -/
def setAssoc (l : List (String × ℕ)) (k : String) (v : ℕ) : List (String × ℕ) :=
  if l.any (fun p => p.1 == k) then l.map (fun p => if p.1 == k then (k, v) else p)
  else l ++ [(k, v)]

/-- Embedding of `MemoryManager.recordAccess`: `accessTimes.set(chunkKey, now)`. -/
def recordAccess (s : MemState) (key : String) (now : ℕ) : MemState :=
  { s with accessTimes := setAssoc s.accessTimes key now }

/-- State of the claim C5 request-sequence scenario: the memory manager, the
key list of the renderer `chunkCache` map, and the running eviction count. -/
structure RunState where
  mem : MemState
  cache : List String
  evictions : ℕ
deriving DecidableEq

/-- Driver for the eviction scenario of the spec, modelled from the spec (the
repository shows `cleanupCache`/`recordAccess` but not the calling wiring):
each request loads the tile on a miss, records its access before the next
request, recomputes usage so the ceiling check sees the true cache size —
the reading most favourable to the claim — and then runs a cleanup pass. -/
def requestStep (rs : RunState) (key : String) (now : ℕ) : RunState :=
  let cacheLoaded := if rs.cache.contains key then rs.cache else rs.cache ++ [key]
  let memTouched := recordAccess rs.mem key now
  let memSized :=
    { memTouched with currentCacheSize := cacheLoaded.length * BYTES_PER_CHUNK }
  let cleaned := cleanupCache memSized cacheLoaded
  { mem := cleaned.1
    cache := cleaned.2
    evictions := rs.evictions + (cacheLoaded.length - cleaned.2.length) }

/-- Run a whole request sequence (key, time) through `requestStep`, starting
from an empty cache with the given byte ceiling. -/
def runRequests (maxCacheSize : ℕ) (reqs : List (String × ℕ)) : RunState :=
  reqs.foldl (fun rs p => requestStep rs p.1 p.2)
    { mem := { accessTimes := [], currentCacheSize := 0, maxCacheSize := maxCacheSize }
      cache := []
      evictions := 0 }

/-! ## `ChunkPredictor` (TypeScript, advanced-features document) -/

/-- One entry of `ChunkPredictor.movementHistory`:
`{x, y, zoom, timestamp}`. -/
structure MotionSample where
  x : ℚ
  y : ℚ
  zoom : ℚ
  timestamp : ℕ
deriving DecidableEq

/-- A (possibly extrapolated) viewport position `{x, y, zoom}`. -/
structure PredPosition where
  x : ℚ
  y : ℚ
  zoom : ℚ
deriving DecidableEq

/-- One prediction entry `{level, x, y, priority}` returned by
`ChunkPredictor`. -/
structure PredChunk where
  level : ℤ
  x : ℤ
  y : ℤ
  priority : ℚ
deriving DecidableEq

/-- Embedding of `chunks.sort((a, b) => b.priority - a.priority)`: stable sort by
descending priority. -/
def sortByPriorityDesc (l : List PredChunk) : List PredChunk :=
  List.insertionSort (fun a b => b.priority ≤ a.priority) l

/-- Embedding of `ChunkPredictor.getChunksForPosition`.  `Math.sqrt` is a float operation
with no exact rational value, so it is abstracted as a parameter `sqrtM`;
none of the claims depend on actual square-root values.  Level, scale, the
centre chunk, and the 5×5 neighbourhood generation follow the source. -/
def getChunksForPosition (sqrtM : ℚ → ℚ) (pos : PredPosition) : List PredChunk :=
  let level := max 0 (negFloorLog2 pos.zoom)
  let scale : ℚ := (2 : ℚ) ^ (-level)
  let chunkSize : ℚ := 512 * scale
  let centerX := ⌊pos.x / chunkSize⌋
  let centerY := ⌊pos.y / chunkSize⌋
  let radius : ℤ := 2
  sortByPriorityDesc ((intRange (-radius) radius).flatMap (fun dy =>
    (intRange (-radius) radius).map (fun dx =>
      let distance := sqrtM (((dx * dx + dy * dy : ℤ) : ℚ))
      let priority := max 0 (1 - distance / (radius : ℚ))
      ⟨level, centerX + dx, centerY + dy, priority⟩)))

/-- Embedding of `ChunkPredictor.predictNextChunks`: with fewer than two motion samples
return no prediction, otherwise hand the extrapolated position to
`getChunksForPosition`.  The extrapolation pipeline
(`calculateVelocities` / `calculateAcceleration` / `predictPosition`) has no
body in the repository; modelled from the spec: it derives some extrapolated
viewport position from the history, abstracted as the parameter
`predictPos`. -/
def predictNextChunks (sqrtM : ℚ → ℚ) (predictPos : List MotionSample → PredPosition)
    (history : List MotionSample) : List PredChunk :=
  if history.length < 2 then [] else getChunksForPosition sqrtM (predictPos history)

/-! ## Claim C9: LOD selection -/

/-- C9: for every zoom > 0 — given via the dyadic bracket
`2^(-(v+1)) < zoom ≤ 2^(-v)` that says exactly `v = ⌊-log2 zoom⌋` — and every
pyramid with `levelCount ≥ 1`, `calculateLOD` equals
`clamp(⌊-log2 zoom⌋, 0, levelCount - 1)`; zoom 1.0 selects level 0; the
result is never below 0 nor above `levelCount - 1`; and halving the zoom
moves exactly one level coarser whenever neither clamp binds. -/
theorem calculateLOD_clamp_spec (zoom : ℚ) (L : ℕ) (v : ℤ) (hL : 1 ≤ L)
    (h1 : (2 : ℚ) ^ (-(v + 1)) < zoom) (h2 : zoom ≤ (2 : ℚ) ^ (-v)) :
    calculateLOD L zoom = min (max v 0) ((L : ℤ) - 1) ∧
    calculateLOD L 1 = 0 ∧
    0 ≤ calculateLOD L zoom ∧ calculateLOD L zoom ≤ (L : ℤ) - 1 ∧
    (0 ≤ v → v + 1 ≤ (L : ℤ) - 1 →
      calculateLOD L (zoom / 2) = calculateLOD L zoom + 1) := by
  have hv : negFloorLog2 zoom = v := negFloorLog2_eq zoom v h1 h2
  have hsplit : ∀ u : ℤ, (2 : ℚ) ^ (-(u + 1)) = 2 ^ (-u) / 2 := by
    intro u
    rw [show -(u + 1) = -u + (-1) by ring, zpow_add₀ (by norm_num : (2 : ℚ) ≠ 0)]
    norm_num
    ring
  have hv2 : negFloorLog2 (zoom / 2) = v + 1 := by
    apply negFloorLog2_eq
    · rw [hsplit (v + 1)]
      exact div_lt_div_of_pos_right h1 (by norm_num)
    · rw [hsplit v]
      exact div_le_div_of_nonneg_right h2 (by norm_num)
  refine ⟨?_, ?_, ?_, ?_, ?_⟩
  · unfold calculateLOD
    rw [hv]
    omega
  · unfold calculateLOD
    rw [negFloorLog2_one]
    omega
  · unfold calculateLOD
    rw [hv]
    omega
  · unfold calculateLOD
    rw [hv]
    omega
  · intro hv0 hvL
    unfold calculateLOD
    rw [hv, hv2]
    omega

theorem calculateLOD_clamp_spec_witness :
    calculateLOD 4 (1 / 2) = min (max 1 0) ((4 : ℤ) - 1) ∧
    calculateLOD 4 1 = 0 ∧
    0 ≤ calculateLOD 4 (1 / 2) ∧ calculateLOD 4 (1 / 2) ≤ (4 : ℤ) - 1 ∧
    (0 ≤ (1 : ℤ) → (1 : ℤ) + 1 ≤ (4 : ℤ) - 1 →
      calculateLOD 4 (1 / 2 / 2) = calculateLOD 4 (1 / 2) + 1) :=
  calculateLOD_clamp_spec (1 / 2) 4 1 (by norm_num) (by norm_num) (by norm_num)

/-! ## Claim C1: visible-tile computation -/

/-- The example viewport of the spec: `(x=0, y=0, w=1024, h=1024)` at `zoom=1.0`. -/
def viewportExample : Viewport := ⟨0, 0, 1024, 1024, 1⟩

/-- C1 (code-bug evidence): on the very scenario of the spec — viewport
`(0,0,1024,1024)` at zoom 1.0 on the 4096²/512 pyramid, which selects level
0 — `getVisibleChunks` returns the 3×3 block `{0,1,2} × {0,1,2}` (nine
tiles), while the brute-force overlap reference returns exactly the 2×2
block the claim demands; the extra tiles, e.g. `(2,0)`, do not overlap the
viewport at all.  The inclusive upper loop bound `endX = ceil((x+w)/cs)`
(rather than `ceil(...) - 1`) adds one non-overlapping row and column. -/
theorem getVisibleChunks_example_not_minimal :
    calculateLOD 4 1 = 0 ∧
    getVisibleChunks exampleMetadata viewportExample 0 =
      [⟨0, 0, 0⟩, ⟨0, 1, 0⟩, ⟨0, 2, 0⟩, ⟨0, 0, 1⟩, ⟨0, 1, 1⟩, ⟨0, 2, 1⟩,
       ⟨0, 0, 2⟩, ⟨0, 1, 2⟩, ⟨0, 2, 2⟩] ∧
    bruteForceVisible exampleMetadata viewportExample 0 =
      [⟨0, 0, 0⟩, ⟨0, 1, 0⟩, ⟨0, 0, 1⟩, ⟨0, 1, 1⟩] ∧
    (⟨0, 2, 0⟩ : ChunkInfo) ∈ getVisibleChunks exampleMetadata viewportExample 0 ∧
    tileOverlapsViewport exampleMetadata viewportExample 0 2 0 = false := by
  refine ⟨?_, ?_, ?_, ?_, ?_⟩
  · unfold calculateLOD
    rw [negFloorLog2_one]
    decide
  · simp only [getVisibleChunks, exampleMetadata, viewportExample]
    norm_num
    decide
  · simp only [bruteForceVisible, tileOverlapsViewport, exampleMetadata, viewportExample]
    norm_num [intRange]
    have hr : (List.range (Int.toNat 8)).map (fun (i : ℕ) => (i : ℤ)) =
        [0, 1, 2, 3, 4, 5, 6, 7] := by rfl
    simp only [hr]
    norm_num
  · simp only [getVisibleChunks, exampleMetadata, viewportExample]
    norm_num
    decide
  · simp only [tileOverlapsViewport, exampleMetadata, viewportExample]
    norm_num

/-! ## Claim C2: pyramid generation stopping behaviour -/

/-- Concrete evaluation of the pyramid on the 4096×4096 example of the spec. -/
theorem generate_pyramid_eval :
    generate_pyramid 256 4096 4096 =
      [⟨0, 4096, 4096, 1⟩, ⟨1, 2048, 2048, 1 / 2⟩, ⟨2, 1024, 1024, 1 / 4⟩,
       ⟨3, 512, 512, 1 / 8⟩] := by
  simp [generate_pyramid, generate_pyramid_go]
  norm_num

/-- C2 counterexample: for the 4096×4096 image with `min_size = 256` the
loop records exactly the four levels 4096², 2048², 1024², 512² — every
recorded level has its smaller dimension strictly above the minimum, so the
stopping level (the first whose smaller dimension is at or below 256, namely
the 256² level) is not included in the produced list, contrary to the
claim. -/
theorem generate_pyramid_stopping_level_not_included :
    generate_pyramid 256 4096 4096 =
      [⟨0, 4096, 4096, 1⟩, ⟨1, 2048, 2048, 1 / 2⟩, ⟨2, 1024, 1024, 1 / 4⟩,
       ⟨3, 512, 512, 1 / 8⟩] ∧
    ¬ ∃ l ∈ generate_pyramid 256 4096 4096, min l.width l.height ≤ 256 := by
  constructor
  · exact generate_pyramid_eval
  · rintro ⟨l, hl, hle⟩
    have := generate_pyramid_go_min_lt 256 4096 4096 0 l hl
    omega

/-- C2 (amended): `generate_pyramid` records successively halved levels with
contiguous numbering starting at 0, keeps exactly the levels whose smaller
dimension is strictly greater than the configured minimum, and stops at the
first level whose smaller dimension is at or below the minimum — that
stopping level is excluded, so one further halving of the last recorded
level is at or below the minimum. -/
theorem generate_pyramid_levels_spec (minSize w h : ℕ) :
    (∀ i, i < (generate_pyramid minSize w h).length →
      (generate_pyramid minSize w h)[i]? =
        some ⟨i, w / 2 ^ i, h / 2 ^ i, (1 : ℚ) / 2 ^ i⟩) ∧
    (∀ l ∈ generate_pyramid minSize w h, minSize < min l.width l.height) ∧
    min (w / 2 ^ (generate_pyramid minSize w h).length)
        (h / 2 ^ (generate_pyramid minSize w h).length) ≤ minSize := by
  refine ⟨?_, generate_pyramid_go_min_lt minSize w h 0, generate_pyramid_go_halt minSize w h 0⟩
  intro i hi
  obtain ⟨len, heq⟩ := generate_pyramid_go_eq minSize w h 0
  have hlen : (generate_pyramid minSize w h).length = len := by
    show (generate_pyramid_go minSize w h 0).length = len
    rw [heq, List.length_map, List.length_range]
  rw [show generate_pyramid minSize w h = _ from heq]
  rw [List.getElem?_map, List.getElem?_range (by omega : i < len)]
  simp

theorem generate_pyramid_levels_spec_witness :
    3 < (generate_pyramid 256 4096 4096).length ∧
    (generate_pyramid 256 4096 4096)[3]? =
      some ⟨3, 4096 / 2 ^ 3, 4096 / 2 ^ 3, (1 : ℚ) / 2 ^ 3⟩ ∧
    min (4096 / 2 ^ (generate_pyramid 256 4096 4096).length)
        (4096 / 2 ^ (generate_pyramid 256 4096 4096).length) ≤ 256 := by
  have h := generate_pyramid_levels_spec 256 4096 4096
  have hlen : (generate_pyramid 256 4096 4096).length = 4 := by
    simp [generate_pyramid, generate_pyramid_go]
  exact ⟨by omega, h.1 3 (by omega), h.2.2⟩

/-! ## Claim C3: metadata grid invariants -/

set_option maxRecDepth 8000 in
/-- C3 (code-bug evidence): on the 4096×4096 / `chunk_size = 512` pipeline
run, every metadata level records `width = height = 512` — the extent of
`chunk_list[0]`, the top-left chunk, rather than of the last chunk — so
`chunks_x = ceil(width / chunk_size)` fails with respect to the recorded
width on every level wider than one chunk (level 0 records `chunks_x = 8`
but `ceil(512/512) = 1`), while `chunk_count = chunks_x * chunks_y` does
hold on every level. -/
theorem generate_metadata_chunksx_mismatch :
    ((process_large_image 512 256 4096 4096 "img" 0).levels.map
      (fun li => (li.level, li.width, li.height, li.chunks_x, li.chunks_y, li.chunk_count))) =
      [(0, 512, 512, 8, 8, 64), (1, 512, 512, 4, 4, 16), (2, 512, 512, 2, 2, 4),
       (3, 512, 512, 1, 1, 1)] ∧
    (∀ li ∈ (process_large_image 512 256 4096 4096 "img" 0).levels,
      li.chunk_count = li.chunks_x * li.chunks_y) ∧
    ¬ (∀ li ∈ (process_large_image 512 256 4096 4096 "img" 0).levels,
      li.chunks_x = (li.width + li.chunk_size - 1) / li.chunk_size) := by
  refine ⟨?_, ?_, ?_⟩ <;>
  · simp only [process_large_image, generate_pyramid_eval]
    decide

/-! ## Claim C4: determinism of the processing pipeline -/

/-- C4 counterexample: two runs of `process_large_image` on the same 512×512
source image return different metadata — `generate_image_id()` mints a fresh
UUID per run and `processing_time` reads the wall clock, so the `image_id`
and `processing_time` fields differ between runs, falsifying "every field of
the returned metadata is equal across the two runs". -/
theorem process_large_image_not_fully_deterministic :
    process_large_image 512 256 512 512 "uuid-run-1" 1 ≠
      process_large_image 512 256 512 512 "uuid-run-2" 2 := by
  intro h
  have hids : "uuid-run-1" = "uuid-run-2" := by
    calc "uuid-run-1"
        = (process_large_image 512 256 512 512 "uuid-run-1" 1).image_id := rfl
      _ = (process_large_image 512 256 512 512 "uuid-run-2" 2).image_id := by rw [h]
      _ = "uuid-run-2" := rfl
  simp at hids

/-- C4 (amended): the pipeline is deterministic in everything derived from
the source image — the level descriptors, the total tile count, the chunk
size, and (being a pure function of the image) the tile partitioning are
identical across any two runs on the same input; only the environment-fed
`image_id` (fresh UUID) and `processing_time` (wall clock) fields differ. -/
theorem process_large_image_core_deterministic (cs ms w h : ℕ)
    (id1 id2 : String) (t1 t2 : ℚ) :
    (process_large_image cs ms w h id1 t1).levels =
      (process_large_image cs ms w h id2 t2).levels ∧
    (process_large_image cs ms w h id1 t1).total_chunks =
      (process_large_image cs ms w h id2 t2).total_chunks ∧
    (process_large_image cs ms w h id1 t1).chunk_size =
      (process_large_image cs ms w h id2 t2).chunk_size :=
  ⟨rfl, rfl, rfl⟩

/-! ## Claim C7: request coalescing -/

/-- C7: at most one fetch is ever in flight per tile key.  If the key is
cached or pending, `loadChunk` issues nothing and leaves the state unchanged;
if the key is fresh, the first request issues the single fetch and a second
request for the same still-unresolved key issues none; and a single
`loadMissingChunks` call that mentions the same fresh chunk twice also
issues exactly one fetch. -/
theorem loadChunk_coalesces (s : RendererCache) (key : String)
    (hc : key ∉ s.chunkCache) (hl : key ∉ s.loadingChunks) :
    (∀ s2 : RendererCache, key ∈ s2.chunkCache ∨ key ∈ s2.loadingChunks →
      loadChunkIssue s2 key = (s2, false)) ∧
    (loadChunkIssue s key).2 = true ∧
    (loadChunkIssue (loadChunkIssue s key).1 key).2 = false ∧
    (∀ c : ChunkInfo, getChunkKey c = key →
      (loadMissingChunksIssue s [c, c]).2 = 1) := by
  refine ⟨?_, ?_, ?_, ?_⟩
  · intro s2 h2
    unfold loadChunkIssue
    rw [if_pos h2]
  · simp [loadChunkIssue, hc, hl]
  · simp [loadChunkIssue, hc, hl]
  · intro c hck
    simp [loadMissingChunksIssue, loadChunkIssue, hck, hc, hl]

theorem loadChunk_coalesces_witness :
    (loadChunkIssue ⟨[], []⟩ "0-0-0").2 = true ∧
    (loadChunkIssue (loadChunkIssue ⟨[], []⟩ "0-0-0").1 "0-0-0").2 = false :=
  ⟨(loadChunk_coalesces ⟨[], []⟩ "0-0-0" (by simp) (by simp)).2.1,
   (loadChunk_coalesces ⟨[], []⟩ "0-0-0" (by simp) (by simp)).2.2.1⟩

/-! ## Claim C8: failed fetches revert to absent and can be retried -/

theorem erase_append_singleton (l : List String) (k : String) (h : k ∉ l) :
    (l ++ [k]).erase k = l := by
  induction l with
  | nil => simp
  | cons a t ih =>
    have hka : ¬(k = a) := by
      intro hk
      exact h (hk ▸ List.mem_cons_self a t)
    rw [List.cons_append, List.erase_cons]
    rw [if_neg (by simpa using fun hak => hka hak.symm)]
    rw [ih (fun hk => h (List.mem_cons_of_mem a hk))]

/-- C8: when a fetch for a fresh key fails, the `finally` block removes the
key from `loadingChunks` and the `catch` block swallows the error (the
completion is a total state update, no exception reaches the render loop),
leaving the key absent from both the cache and the in-flight set; a later
request for the same key issues a new fetch, and on success the key is
cached and no longer loading — no key stays locked in the loading state. -/
theorem loadChunk_failed_fetch_recovers (s : RendererCache) (key : String)
    (hc : key ∉ s.chunkCache) (hl : key ∉ s.loadingChunks) :
    loadChunkComplete (loadChunkIssue s key).1 key .err = s ∧
    key ∉ (loadChunkComplete (loadChunkIssue s key).1 key .err).chunkCache ∧
    key ∉ (loadChunkComplete (loadChunkIssue s key).1 key .err).loadingChunks ∧
    (loadChunkIssue (loadChunkComplete (loadChunkIssue s key).1 key .err) key).2 = true ∧
    key ∈ (loadChunkComplete
      (loadChunkIssue (loadChunkComplete (loadChunkIssue s key).1 key .err) key).1
      key .ok).chunkCache ∧
    key ∉ (loadChunkComplete
      (loadChunkIssue (loadChunkComplete (loadChunkIssue s key).1 key .err) key).1
      key .ok).loadingChunks := by
  have hstep : loadChunkComplete (loadChunkIssue s key).1 key .err = s := by
    simp only [loadChunkIssue, loadChunkComplete]
    rw [if_neg (by simp [hc, hl])]
    simp [erase_append_singleton s.loadingChunks key hl]
  refine ⟨hstep, ?_, ?_, ?_, ?_, ?_⟩
  · rw [hstep]; exact hc
  · rw [hstep]; exact hl
  · rw [hstep]; simp [loadChunkIssue, hc, hl]
  · rw [hstep]
    simp only [loadChunkIssue, loadChunkComplete]
    rw [if_neg (by simp [hc, hl])]
    simp
  · rw [hstep]
    simp only [loadChunkIssue, loadChunkComplete]
    rw [if_neg (by simp [hc, hl])]
    simp [erase_append_singleton s.loadingChunks key hl, hl]

theorem loadChunk_failed_fetch_recovers_witness :
    loadChunkComplete (loadChunkIssue ⟨[], []⟩ "0-0-0").1 "0-0-0" .err = ⟨[], []⟩ ∧
    "0-0-0" ∉ (loadChunkComplete (loadChunkIssue ⟨[], []⟩ "0-0-0").1 "0-0-0"
      .err).chunkCache ∧
    "0-0-0" ∉ (loadChunkComplete (loadChunkIssue ⟨[], []⟩ "0-0-0").1 "0-0-0"
      .err).loadingChunks ∧
    (loadChunkIssue (loadChunkComplete (loadChunkIssue ⟨[], []⟩ "0-0-0").1 "0-0-0" .err)
      "0-0-0").2 = true ∧
    "0-0-0" ∈ (loadChunkComplete
      (loadChunkIssue (loadChunkComplete (loadChunkIssue ⟨[], []⟩ "0-0-0").1 "0-0-0" .err)
        "0-0-0").1 "0-0-0" .ok).chunkCache ∧
    "0-0-0" ∉ (loadChunkComplete
      (loadChunkIssue (loadChunkComplete (loadChunkIssue ⟨[], []⟩ "0-0-0").1 "0-0-0" .err)
        "0-0-0").1 "0-0-0" .ok).loadingChunks :=
  loadChunk_failed_fetch_recovers ⟨[], []⟩ "0-0-0" (by simp) (by simp)

/-! ## Claim C5: eviction counts and LRU order -/

/-- C5 counterexample: with a byte ceiling holding exactly K = 2 entries and
N = 3 pairwise-distinct requests, access recorded before the next request and
usage recomputed before every cleanup pass, no eviction happens at all: each
pass removes `Math.floor(0.3 * size)` entries, which is 0 for any size up to
3 — so the claimed "exactly N − K = 1 evictions, K most recent resident"
fails (0 evictions, all three entries resident). -/
theorem runRequests_no_per_request_evictions :
    (runRequests (2 * BYTES_PER_CHUNK) [("a", 1), ("b", 2), ("c", 3)]).evictions = 0 ∧
    (runRequests (2 * BYTES_PER_CHUNK) [("a", 1), ("b", 2), ("c", 3)]).cache =
      ["a", "b", "c"] ∧
    (runRequests (2 * BYTES_PER_CHUNK) [("a", 1), ("b", 2), ("c", 3)]).evictions ≠ 3 - 2 :=
  ⟨by decide, by decide, by decide⟩

instance : IsTotal (String × ℕ) (fun p q => p.2 ≤ q.2) :=
  ⟨fun a b => Nat.le_total a.2 b.2⟩

instance : IsTrans (String × ℕ) (fun p q => p.2 ≤ q.2) :=
  ⟨fun _ _ _ hab hbc => Nat.le_trans hab hbc⟩

theorem assoc_nodup_eq {l : List (String × ℕ)} (h : (l.map Prod.fst).Nodup)
    {p q : String × ℕ} (hp : p ∈ l) (hq : q ∈ l) (hfst : p.1 = q.1) : p = q := by
  induction l with
  | nil => exact absurd hp (List.not_mem_nil p)
  | cons a t ih =>
    rw [List.map_cons, List.nodup_cons] at h
    rcases List.mem_cons.mp hp with rfl | hp2
    · rcases List.mem_cons.mp hq with rfl | hq2
      · rfl
      · exact absurd (hfst ▸ List.mem_map_of_mem Prod.fst hq2) h.1
    · rcases List.mem_cons.mp hq with rfl | hq2
      · exact absurd (hfst ▸ List.mem_map_of_mem Prod.fst hp2) h.1
      · exact ih h.2 hp2 hq2

/-- C5 (amended): a cleanup pass that runs with usage at or above the ceiling
(on a cache whose access map is in sync: same keys, no duplicates) evicts the
`⌊0.3·n⌋` least-recently-touched entries of the `n` resident in one batch:
exactly `n − ⌊3n/10⌋` entries remain, and the access time of every evicted entry
is at most the access time of every surviving entry.  Evictions therefore happen
in 30%-batches, not one per request. -/
theorem cleanupCache_evicts_lru_batch (s : MemState) (cache : List String)
    (hover : s.maxCacheSize ≤ s.currentCacheSize)
    (hmem : ∀ k, k ∈ s.accessTimes.map Prod.fst ↔ k ∈ cache)
    (hndK : (s.accessTimes.map Prod.fst).Nodup)
    (hndC : cache.Nodup) :
    ((cleanupCache s cache).2).length = cache.length - 3 * cache.length / 10 ∧
    (∀ p ∈ s.accessTimes, p.1 ∈ cache → p.1 ∉ (cleanupCache s cache).2 →
      ∀ q ∈ (cleanupCache s cache).1.accessTimes, p.2 ≤ q.2) := by
  have hif : ¬ s.currentCacheSize < s.maxCacheSize := not_lt.mpr hover
  have hc2 : (cleanupCache s cache).2 =
      cache.filter (fun k => decide (k ∉ cleanupVictims s cache)) := by
    rw [cleanupCache, if_neg hif]
  have hc1t : (cleanupCache s cache).1.accessTimes =
      s.accessTimes.filter (fun p => decide (p.1 ∉ cleanupVictims s cache ∨ p.1 ∉ cache)) := by
    rw [cleanupCache, if_neg hif]
  have hperm : (sortByAccessTime s.accessTimes).Perm s.accessTimes :=
    List.perm_insertionSort _ _
  have hndS : ((sortByAccessTime s.accessTimes).map Prod.fst).Nodup :=
    ((hperm.map Prod.fst).nodup_iff).mpr hndK
  have hkeysperm : (s.accessTimes.map Prod.fst).Perm cache :=
    (List.perm_ext_iff_of_nodup hndK hndC).mpr hmem
  have hlenS : (sortByAccessTime s.accessTimes).length = cache.length := by
    have h1 := hperm.length_eq
    have h2 := hkeysperm.length_eq
    rw [List.length_map] at h2
    omega
  have hvic : cleanupVictims s cache =
      ((sortByAccessTime s.accessTimes).take (3 * cache.length / 10)).map Prod.fst := rfl
  have hvlen : (cleanupVictims s cache).length = 3 * cache.length / 10 := by
    rw [hvic, List.length_map, List.length_take, hlenS]
    omega
  have hvnd : (cleanupVictims s cache).Nodup := by
    rw [hvic, List.map_take]
    exact List.Nodup.sublist (List.take_sublist _ _) hndS
  have hvsub : ∀ k ∈ cleanupVictims s cache, k ∈ cache := by
    intro k hk
    rw [hvic] at hk
    obtain ⟨p, hp, rfl⟩ := List.mem_map.mp hk
    have hpS : p ∈ sortByAccessTime s.accessTimes := (List.take_sublist _ _).subset hp
    have hpA : p ∈ s.accessTimes := hperm.mem_iff.mp hpS
    exact (hmem p.1).mp (List.mem_map_of_mem Prod.fst hpA)
  constructor
  · rw [hc2]
    have hsplit := @List.length_eq_length_filter_add _ cache
      (fun k => decide (k ∉ cleanupVictims s cache))
    have hin : (cache.filter (fun k => !(decide (k ∉ cleanupVictims s cache)))).length =
        (cleanupVictims s cache).length := by
      have heq : cache.filter (fun k => !(decide (k ∉ cleanupVictims s cache))) =
          cache.filter (fun k => decide (k ∈ cleanupVictims s cache)) := by
        apply List.filter_congr
        intro a _
        simp
      rw [heq]
      have hpermF : (cache.filter (fun k => decide (k ∈ cleanupVictims s cache))).Perm
          (cleanupVictims s cache) := by
        apply (List.perm_ext_iff_of_nodup (hndC.filter _) hvnd).mpr
        intro a
        simp only [List.mem_filter, decide_eq_true_eq]
        constructor
        · rintro ⟨-, h⟩
          exact h
        · intro h
          exact ⟨hvsub a h, h⟩
      exact hpermF.length_eq
    rw [hvlen] at hin
    omega
  · intro p hpA hpC hpNot q hqA
    rw [hc1t] at hqA
    obtain ⟨hqT, hqcond⟩ := List.mem_filter.mp hqA
    rw [decide_eq_true_eq] at hqcond
    have hqC : q.1 ∈ cache := (hmem q.1).mp (List.mem_map_of_mem Prod.fst hqT)
    have hqV : q.1 ∉ cleanupVictims s cache := by
      rcases hqcond with h | h
      · exact h
      · exact absurd hqC h
    rw [hc2] at hpNot
    have hpV : p.1 ∈ cleanupVictims s cache := by
      by_contra hnv
      exact hpNot (List.mem_filter.mpr ⟨hpC, by simpa using hnv⟩)
    rw [hvic] at hpV
    obtain ⟨pt, hptake, hpfst⟩ := List.mem_map.mp hpV
    have hptS : pt ∈ sortByAccessTime s.accessTimes := (List.take_sublist _ _).subset hptake
    have hptA : pt ∈ s.accessTimes := hperm.mem_iff.mp hptS
    have hptp : pt = p := assoc_nodup_eq hndK hptA hpA hpfst
    have hqS : q ∈ sortByAccessTime s.accessTimes := hperm.mem_iff.mpr hqT
    have hqsplit : q ∈ (sortByAccessTime s.accessTimes).take (3 * cache.length / 10) ∨
        q ∈ (sortByAccessTime s.accessTimes).drop (3 * cache.length / 10) := by
      rw [← List.mem_append, List.take_append_drop]
      exact hqS
    rcases hqsplit with hqtake | hqdrop
    · exact absurd (hvic ▸ List.mem_map_of_mem Prod.fst hqtake) hqV
    · have hsorted : List.Sorted (fun a b : String × ℕ => a.2 ≤ b.2)
          (sortByAccessTime s.accessTimes) := List.sorted_insertionSort _ _
      have := hsorted.rel_of_mem_take_of_mem_drop hptake hqdrop
      exact hptp ▸ this

/-- Concrete four-entry state for the C5 witness: four tiles with access
times 1..4, usage at the ceiling. -/
def memEx : MemState :=
  { accessTimes := [("a", 1), ("b", 2), ("c", 3), ("d", 4)]
    currentCacheSize := 4 * BYTES_PER_CHUNK
    maxCacheSize := 4 * BYTES_PER_CHUNK }

def cacheEx : List String := ["a", "b", "c", "d"]

theorem cleanupCache_evicts_lru_batch_witness :
    ((cleanupCache memEx cacheEx).2).length = cacheEx.length - 3 * cacheEx.length / 10 ∧
    (∀ q ∈ (cleanupCache memEx cacheEx).1.accessTimes, (("a", 1) : String × ℕ).2 ≤ q.2) := by
  have h := cleanupCache_evicts_lru_batch memEx cacheEx (by decide)
    (by intro k; exact Iff.rfl) (by decide) (by decide)
  exact ⟨h.1, h.2 ("a", 1) (by decide) (by decide) (by decide)⟩

/-! ## Claim C6: eviction versus the draw set of the current frame -/

/-- Concrete state for C6: four cached tiles of level 0, the oldest-touched
being tile (0,0), with usage at the ceiling. -/
def memVis : MemState :=
  { accessTimes := [("0-0-0", 1), ("0-1-0", 2), ("0-2-0", 3), ("0-3-0", 4)]
    currentCacheSize := 4 * BYTES_PER_CHUNK
    maxCacheSize := 4 * BYTES_PER_CHUNK }

def cacheVis : List String := ["0-0-0", "0-1-0", "0-2-0", "0-3-0"]

/-- The current-frame draw (visible) set for the C6 scenario: tiles (0,0)
and (1,0) of level 0. -/
def visibleVis : List ChunkInfo := [⟨0, 0, 0⟩, ⟨0, 1, 0⟩]

/-- C6 counterexample: with tile (0,0) of level 0 in the current-frame
draw set, cached, and least recently touched, a cleanup pass at the ceiling
evicts precisely that tile, and the draw loop of the frame then skips it — the
eviction pass does remove an entry of the current draw set. -/
theorem cleanupCache_evicts_drawn_tile :
    (⟨0, 0, 0⟩ : ChunkInfo) ∈ visibleVis ∧
    getChunkKey ⟨0, 0, 0⟩ ∈ cacheVis ∧
    getChunkKey ⟨0, 0, 0⟩ ∉ (cleanupCache memVis cacheVis).2 ∧
    renderChunksDrawn (cleanupCache memVis cacheVis).2 visibleVis =
      [(⟨0, 1, 0⟩ : ChunkInfo)] :=
  ⟨by decide, by decide, by decide, by decide⟩

/-- C6 (amended): an eviction pass selects victims purely by access time;
being in the current-frame draw set gives an entry no protection.
Whenever the ceiling check passes and the key of a drawn tile is in the victim
batch, the pass removes it, and the per-frame draw loop afterwards skips
exactly that tile while still drawing every visible tile that remains
cached. -/
theorem cleanupCache_ignores_draw_set (s : MemState) (cache : List String)
    (visible : List ChunkInfo) (c : ChunkInfo)
    (hover : s.maxCacheSize ≤ s.currentCacheSize)
    (hvic : getChunkKey c ∈ cleanupVictims s cache)
    (_hvis : c ∈ visible) :
    getChunkKey c ∉ (cleanupCache s cache).2 ∧
    c ∉ renderChunksDrawn (cleanupCache s cache).2 visible ∧
    (∀ v ∈ visible, getChunkKey v ∈ (cleanupCache s cache).2 →
      v ∈ renderChunksDrawn (cleanupCache s cache).2 visible) := by
  have hif : ¬ s.currentCacheSize < s.maxCacheSize := not_lt.mpr hover
  have hc2 : (cleanupCache s cache).2 =
      cache.filter (fun k => decide (k ∉ cleanupVictims s cache)) := by
    rw [cleanupCache, if_neg hif]
  have hnot : getChunkKey c ∉ (cleanupCache s cache).2 := by
    rw [hc2]
    intro hmem2
    obtain ⟨-, hcond⟩ := List.mem_filter.mp hmem2
    rw [decide_eq_true_eq] at hcond
    exact hcond hvic
  refine ⟨hnot, ?_, ?_⟩
  · intro hdrawn
    obtain ⟨-, hcont⟩ := List.mem_filter.mp hdrawn
    have : getChunkKey c ∈ (cleanupCache s cache).2 := by simpa using hcont
    exact hnot this
  · intro v hv hvcache
    apply List.mem_filter.mpr
    exact ⟨hv, by simpa using hvcache⟩

theorem cleanupCache_ignores_draw_set_witness :
    getChunkKey ⟨0, 0, 0⟩ ∉ (cleanupCache memVis cacheVis).2 ∧
    (⟨0, 0, 0⟩ : ChunkInfo) ∉ renderChunksDrawn (cleanupCache memVis cacheVis).2 visibleVis ∧
    (∀ v ∈ visibleVis, getChunkKey v ∈ (cleanupCache memVis cacheVis).2 →
      v ∈ renderChunksDrawn (cleanupCache memVis cacheVis).2 visibleVis) :=
  cleanupCache_ignores_draw_set memVis cacheVis visibleVis ⟨0, 0, 0⟩
    (by decide) (by decide) (by decide)

/-! ## Claim C10: validity of predicted tile ids -/

/-- C10 counterexample: the predictor run at position `(0,0)`, `zoom = 1`
(two motion samples recorded, any extrapolation landing at that position,
any square-root model) returns the prediction entry
`{level := 0, x := -2, y := -2, priority := 1}` whose `x` is negative —
outside `[0, chunksX)` for every descriptor — because
`getChunksForPosition` never clamps the 5×5 neighbourhood to the grid. -/
theorem predictNextChunks_out_of_bounds :
    (⟨0, -2, -2, 1⟩ : PredChunk) ∈ predictNextChunks (fun _ => 0)
      (fun _ => ⟨0, 0, 1⟩) [⟨0, 0, 1, 0⟩, ⟨0, 0, 1, 1⟩] ∧
    (⟨0, -2, -2, 1⟩ : PredChunk).x < 0 := by
  constructor
  · rw [predictNextChunks, if_neg (by decide)]
    simp only [getChunksForPosition, sortByPriorityDesc, List.mem_insertionSort,
      negFloorLog2_one]
    refine List.mem_flatMap.mpr ⟨-2, ?_, List.mem_map.mpr ⟨-2, ?_, ?_⟩⟩
    · decide
    · decide
    · norm_num
  · decide

/-- C10 (amended): every element of the prediction carries
`level = max(0, ⌊-log2 zoom⌋)` — always ≥ 0 but not clamped above by the
level count of the descriptor — and coordinates inside the 5×5 block centred on
the predicted centre chunk; the predictor performs no clamping of `x`, `y`
to the grid of the level, so elements outside `[0, chunksX) × [0, chunksY)` can
occur (see the counterexample). -/
theorem getChunksForPosition_shape (sqrtM : ℚ → ℚ) (pos : PredPosition)
    (c : PredChunk) (hc : c ∈ getChunksForPosition sqrtM pos) :
    0 ≤ c.level ∧
    c.level = max 0 (negFloorLog2 pos.zoom) ∧
    ∃ dx dy : ℤ, -2 ≤ dx ∧ dx ≤ 2 ∧ -2 ≤ dy ∧ dy ≤ 2 ∧
      c.x = ⌊pos.x / (512 * (2 : ℚ) ^ (-(max 0 (negFloorLog2 pos.zoom))))⌋ + dx ∧
      c.y = ⌊pos.y / (512 * (2 : ℚ) ^ (-(max 0 (negFloorLog2 pos.zoom))))⌋ + dy := by
  simp only [getChunksForPosition, sortByPriorityDesc, List.mem_insertionSort] at hc
  obtain ⟨dy, hdy, hc2⟩ := List.mem_flatMap.mp hc
  obtain ⟨dx, hdx, rfl⟩ := List.mem_map.mp hc2
  rw [mem_intRange] at hdy hdx
  exact ⟨le_max_left 0 _, rfl, dx, dy, hdx.1, hdx.2, hdy.1, hdy.2, rfl, rfl⟩

theorem getChunksForPosition_shape_witness :
    0 ≤ (⟨0, -2, -2, 1⟩ : PredChunk).level ∧
    (⟨0, -2, -2, 1⟩ : PredChunk).level = max 0 (negFloorLog2 (1 : ℚ)) ∧
    (∃ dx dy : ℤ, -2 ≤ dx ∧ dx ≤ 2 ∧ -2 ≤ dy ∧ dy ≤ 2 ∧
      (⟨0, -2, -2, 1⟩ : PredChunk).x =
        ⌊(0 : ℚ) / (512 * (2 : ℚ) ^ (-(max 0 (negFloorLog2 (1 : ℚ)))))⌋ + dx ∧
      (⟨0, -2, -2, 1⟩ : PredChunk).y =
        ⌊(0 : ℚ) / (512 * (2 : ℚ) ^ (-(max 0 (negFloorLog2 (1 : ℚ)))))⌋ + dy) :=
  getChunksForPosition_shape (fun _ => 0) ⟨0, 0, 1⟩ ⟨0, -2, -2, 1⟩ (by
    simp only [getChunksForPosition, sortByPriorityDesc, List.mem_insertionSort,
      negFloorLog2_one]
    refine List.mem_flatMap.mpr ⟨-2, ?_, List.mem_map.mpr ⟨-2, ?_, ?_⟩⟩
    · decide
    · decide
    · norm_num)
